import Mathlib

/-
Verification of the Mi-bot news aggregation pipeline.

The Python sources are shallowly embedded over `Str := List Char`
(one entry per Python character).  Python dictionaries used as records
are embedded as Lean structures whose fields are `Option`-valued
(`none` = key absent), so that `d.get(k, default)` becomes
`field.getD default`.  Python's `float` values that flow through the
analyzer are parsed from decimal literals captured by the percentage
regex; they are embedded as exact decimals (`Dec`), which agrees with
CPython on every literal the regex can capture that is within float's
faithfully-representable range (all concrete inputs used below).
String scanning (`in`, `find`, `rfind`, `split`, `strip`, `title`)
follows CPython semantics on the ASCII fragment the pipeline handles.
-/

namespace Marketbot

/-- A Python `str`, one `Char` per Python character. -/
abbrev Str := List Char

/-- ASCII lower-casing of one character (Python `str.lower` on ASCII). -/
def pyLowerChar (c : Char) : Char :=
  if 'A' ≤ c ∧ c ≤ 'Z' then Char.ofNat (c.toNat + 32) else c

/-- Python `s.lower()` (ASCII fragment). -/
def pyLower (s : Str) : Str := s.map pyLowerChar

/-- ASCII upper-casing of one character (Python `str.upper` on ASCII). -/
def pyUpperChar (c : Char) : Char :=
  if 'a' ≤ c ∧ c ≤ 'z' then Char.ofNat (c.toNat - 32) else c

/-- The characters Python's `str.split()` and `\s` treat as whitespace
(ASCII fragment). -/
def pyIsSpace (c : Char) : Bool :=
  c = ' ' ∨ c = '\t' ∨ c = '\n' ∨ c = '\r' ∨ c = '\x0b' ∨ c = '\x0c'

/-- `sub` is a prefix of `hay` (Boolean). -/
def isPrefixB : Str → Str → Bool
  | [], _ => true
  | _ :: _, [] => false
  | c :: cs, h :: hs => c = h && isPrefixB cs hs

/-- Python `sub in hay`: substring containment. -/
def containsSub (sub : Str) : Str → Bool
  | [] => isPrefixB sub []
  | h :: hs => isPrefixB sub (h :: hs) || containsSub sub hs

/-- Python `hay.find(sub)`: index of the first occurrence (`none` = `-1`). -/
def findSub (sub : Str) : Str → Option Nat
  | [] => if isPrefixB sub [] then some 0 else none
  | h :: hs =>
    if isPrefixB sub (h :: hs) then some 0
    else (findSub sub hs).map (· + 1)

/-- Python `hay.rfind(sub)`: index of the last occurrence (`none` = `-1`). -/
def rfindSub (sub hay : Str) : Option Nat :=
  (((List.range (hay.length + 1)).filter
      (fun i => isPrefixB sub (hay.drop i))).getLast?)

/-- Python `s.strip()` (leading side). -/
def stripLeft (s : Str) : Str := s.dropWhile (fun c => pyIsSpace c)

/-- Python `s.strip()`: whitespace removed from both ends. -/
def stripWs (s : Str) : Str :=
  ((stripLeft s).reverse.dropWhile (fun c => pyIsSpace c)).reverse

/-- Python `s.rstrip(chars)`. -/
def rstripChars (chars : Str) (s : Str) : Str :=
  (s.reverse.dropWhile (fun c => chars.contains c)).reverse

/-- Helper for `splitWs`: `acc` is the current word, reversed. -/
def splitWsAux : Str → Str → List Str
  | [], acc => if acc.isEmpty then [] else [acc.reverse]
  | c :: cs, acc =>
    if pyIsSpace c then
      if acc.isEmpty then splitWsAux cs [] else acc.reverse :: splitWsAux cs []
    else splitWsAux cs (c :: acc)

/-- Python `s.split()`: split on whitespace runs, no empty pieces. -/
def splitWs (s : Str) : List Str := splitWsAux s []

/-- Python `sep.join(xs)`. -/
def joinSep (sep : Str) : List Str → Str
  | [] => []
  | [x] => x
  | x :: y :: rest => x ++ sep ++ joinSep sep (y :: rest)

/-- Python `hay.split(sep, 1)` when `sep` occurs: the parts before and
after the first occurrence. -/
def splitFirst (sep : Str) (hay : Str) : Option (Str × Str) :=
  (findSub sep hay).map (fun i => (hay.take i, hay.drop (i + sep.length)))

/-- The paragraph separator sought by message truncation. -/
def nnStr : Str := ['\n', '\n']

/-- The sentence separator sought by message truncation. -/
def dsStr : Str := ['.', ' ']

/-- The ellipsis marker appended by message truncation. -/
def ellipsisStr : Str := ['.', '.', '.']

/-- `utils/telegram_formatter.py, truncate_message`.  A short message is
returned unchanged; otherwise the cut point is the last paragraph break
in the first `max_length - 4` characters, else (when absent or in the
first half) the last sentence end, else the hard cut `max_length - 4`;
the ellipsis marker is appended.  `break_point == -1` is embedded as
`none`; Python's `break_point < max_length / 2` (float division) on the
integer `break_point` is exactly `2 * break_point < max_length`.
Faithful for `4 ≤ maxLength` (the source default is 4000; Python slices
with a negative bound below 4 would differ). -/
def truncate_message (message : Str) (maxLength : Nat) : Str :=
  if message.length ≤ maxLength then message
  else
    let head := message.take (maxLength - 4)
    let bp1 : Option Nat := rfindSub nnStr head
    let bp2 : Option Nat :=
      match bp1 with
      | some b =>
        if 2 * b < maxLength then (rfindSub dsStr head).map (· + 1) else some b
      | none => (rfindSub dsStr head).map (· + 1)
    match bp2 with
    | some b =>
      if 2 * b < maxLength then message.take (maxLength - 4) ++ ellipsisStr
      else message.take b ++ ellipsisStr
    | none => message.take (maxLength - 4) ++ ellipsisStr

lemma isPrefixB_length {sub hay : Str} (h : isPrefixB sub hay = true) :
    sub.length ≤ hay.length := by
  induction sub generalizing hay with
  | nil => simp
  | cons c cs ih =>
    cases hay with
    | nil => simp [isPrefixB] at h
    | cons d ds =>
      simp only [isPrefixB, Bool.and_eq_true] at h
      simpa using ih h.2

lemma rfindSub_bound {sub hay : Str} {b : Nat} (h : rfindSub sub hay = some b) :
    b + sub.length ≤ hay.length := by
  have hmem := List.mem_of_getLast?_eq_some h
  have := List.mem_filter.mp hmem
  have hb : b ∈ List.range (hay.length + 1) := this.1
  have hpre : isPrefixB sub (hay.drop b) = true := this.2
  have h1 : sub.length ≤ (hay.drop b).length := isPrefixB_length hpre
  have h2 : b < hay.length + 1 := List.mem_range.mp hb
  simp only [List.length_drop] at h1
  omega

/-- Every over-limit truncation is a cut at some point `bp ≤ maxLength - 4`
followed by the ellipsis. -/
lemma truncate_message_long {m : Str} {maxLength : Nat}
    (h : ¬ m.length ≤ maxLength) :
    ∃ bp, bp ≤ maxLength - 4 ∧
      truncate_message m maxLength = m.take bp ++ ellipsisStr := by
  unfold truncate_message
  simp only [h, if_false]
  have hhead : (m.take (maxLength - 4)).length ≤ maxLength - 4 := by
    simpa using List.length_take_le _ _
  cases h1 : rfindSub nnStr (m.take (maxLength - 4)) with
  | none =>
    cases h2 : rfindSub dsStr (m.take (maxLength - 4)) with
    | none => exact ⟨maxLength - 4, le_refl _, by simp [h1, h2]⟩
    | some b =>
      have hb := rfindSub_bound h2
      simp only [dsStr, List.length_cons, List.length_nil] at hb
      by_cases h3 : 2 * (b + 1) < maxLength
      · exact ⟨maxLength - 4, le_refl _, by simp [h1, h2, h3]⟩
      · exact ⟨b + 1, by omega, by simp [h1, h2, h3]⟩
  | some b0 =>
    have hb0 := rfindSub_bound h1
    simp only [nnStr, List.length_cons, List.length_nil] at hb0
    by_cases h4 : 2 * b0 < maxLength
    · cases h2 : rfindSub dsStr (m.take (maxLength - 4)) with
      | none => exact ⟨maxLength - 4, le_refl _, by simp [h1, h2, h4]⟩
      | some b =>
        have hb := rfindSub_bound h2
        simp only [dsStr, List.length_cons, List.length_nil] at hb
        by_cases h3 : 2 * (b + 1) < maxLength
        · exact ⟨maxLength - 4, le_refl _, by simp [h1, h2, h4, h3]⟩
        · exact ⟨b + 1, by omega, by simp [h1, h2, h4, h3]⟩
    · exact ⟨b0, by omega, by simp [h1, h4]⟩

lemma truncate_message_length (m : Str) :
    (truncate_message m 4000).length ≤ 4000 := by
  by_cases h : m.length ≤ 4000
  · simpa [truncate_message, h] using h
  · obtain ⟨bp, hbp, heq⟩ := truncate_message_long h
    rw [heq]
    have h1 : (m.take bp).length ≤ bp := by simpa using List.length_take_le bp m
    simp only [List.length_append, ellipsisStr, List.length_cons, List.length_nil]
    omega

/-- C1.  `truncate_message` never returns more than the 4000-character
ceiling, is idempotent, and appends the ellipsis marker whenever the
input is over the ceiling. -/
theorem truncate_message_bounded_idempotent (m : Str) :
    (truncate_message m 4000).length ≤ 4000 ∧
    truncate_message (truncate_message m 4000) 4000 = truncate_message m 4000 ∧
    (4000 < m.length → ellipsisStr <:+ truncate_message m 4000) := by
  have short : ∀ (x : Str) (n : Nat), x.length ≤ n → truncate_message x n = x := by
    intro x n h
    unfold truncate_message
    simp [h]
  refine ⟨truncate_message_length m, short _ _ (truncate_message_length m), ?_⟩
  · intro hlong
    have hgt : ¬ m.length ≤ 4000 := by omega
    obtain ⟨bp, hbp, heq⟩ := truncate_message_long hgt
    rw [heq]
    exact List.suffix_append _ _

/-- C1 witness: a concrete 4001-character message is over the ceiling and
its truncation ends with the ellipsis marker. -/
theorem truncate_message_bounded_idempotent_witness :
    4000 < (List.replicate 4001 'a' : Str).length ∧
    ellipsisStr <:+ truncate_message (List.replicate 4001 'a') 4000 := by
  have hlen : (List.replicate 4001 'a' : Str).length = 4001 :=
    List.length_replicate 4001 'a'
  refine ⟨by omega, ?_⟩
  exact (truncate_message_bounded_idempotent (List.replicate 4001 'a')).2.2 (by omega)

/-! ### `utils/text.py`: `clean_text` and the stopword list -/

/-- A `\w` character of Python's `re` (ASCII fragment). -/
def isWordChar (c : Char) : Bool :=
  ('a' ≤ c ∧ c ≤ 'z') ∨ ('A' ≤ c ∧ c ≤ 'Z') ∨ ('0' ≤ c ∧ c ≤ '9') ∨ c = '_'

/-- Index of the first `>` before any newline (the `.`s of the non-greedy
tag pattern `<.*?>` cannot cross a newline). -/
def findCloseTag : Str → Option Nat
  | [] => none
  | '>' :: _ => some 0
  | '\n' :: _ => none
  | _ :: rest => (findCloseTag rest).map (· + 1)

/-- State machine for `stripTags`: `some buf` means we are inside a
candidate tag opened by `<`, with `buf` holding (reversed) the characters
read since.  The non-greedy pattern `<.*?>` matches from a `<` to the
first `>` with no newline between; when a newline or the end arrives
first, nothing from the buffered span can match (no `>` stands before the
newline at any of its positions), so the whole span is emitted verbatim. -/
def stripTagsGo : Option Str → Str → Str
  | none, [] => []
  | some buf, [] => '<' :: buf.reverse
  | none, c :: cs => if c = '<' then stripTagsGo (some []) cs else c :: stripTagsGo none cs
  | some buf, c :: cs =>
    if c = '>' then stripTagsGo none cs
    else if c = '\n' then ('<' :: buf.reverse) ++ '\n' :: stripTagsGo none cs
    else stripTagsGo (some (c :: buf)) cs

/-- `re.sub(r'<.*?>', '', text)`: drop each minimal `<...>` span. -/
def stripTags (s : Str) : Str := stripTagsGo none s

/-- Length of the maximal non-whitespace run at the head. -/
def nonspaceRunLen (s : Str) : Nat :=
  (s.takeWhile (fun c => ¬ pyIsSpace c)).length

/-- Length of the match of `https?://\S+` at the head, if any. -/
def matchHttp (s : Str) : Option Nat :=
  if isPrefixB ('h' :: 't' :: 't' :: 'p' :: []) s then
    let base : Option Nat :=
      if isPrefixB ('s' :: ':' :: '/' :: '/' :: []) (s.drop 4) then some 8
      else if isPrefixB (':' :: '/' :: '/' :: []) (s.drop 4) then some 7
      else none
    match base with
    | some b =>
      let m := nonspaceRunLen (s.drop b)
      if m = 0 then none else some (b + m)
    | none => none
  else none

/-- Length of the match of `www\.\S+` at the head, if any. -/
def matchWww (s : Str) : Option Nat :=
  if isPrefixB ('w' :: 'w' :: 'w' :: '.' :: []) s then
    let m := nonspaceRunLen (s.drop 4)
    if m = 0 then none else some (4 + m)
  else none

/-- Scanner for `stripUrls`; the first argument counts characters of a
recognized match still to be skipped (a match is never empty, so skipping
`n - 1` further characters after the current one is exact). -/
def stripUrlsGo : Nat → Str → Str
  | _ + 1, [] => []
  | k + 1, _ :: cs => stripUrlsGo k cs
  | 0, [] => []
  | 0, c :: cs =>
    match (matchHttp (c :: cs)).orElse (fun _ => matchWww (c :: cs)) with
    | some n => stripUrlsGo (n - 1) cs
    | none => c :: stripUrlsGo 0 cs

/-- `re.sub(r'https?://\S+|www\.\S+', '', text)`. -/
def stripUrls (s : Str) : Str := stripUrlsGo 0 s

/-- `re.sub(r'\S+@\S+', '', text)`: a maximal non-whitespace run is
removed exactly when it contains an `@` that is neither its first nor
its last character (the backtracking of `\S+@\S+` always consumes the
whole run). -/
def stripEmailsGo : Nat → Str → Str
  | _ + 1, [] => []
  | k + 1, _ :: cs => stripEmailsGo k cs
  | 0, [] => []
  | 0, c :: cs =>
    if pyIsSpace c then c :: stripEmailsGo 0 cs
    else
      let run := (c :: cs).takeWhile (fun d => ¬ pyIsSpace d)
      if ((run.drop 1).take (run.length - 2)).contains '@' then
        stripEmailsGo (run.length - 1) cs
      else c :: stripEmailsGo 0 cs

/-- The e-mail pass, started outside any skipped match. -/
def stripEmails (s : Str) : Str := stripEmailsGo 0 s

/-- `re.sub(r'[^\w\s.,!?-]', '', text)`. -/
def stripSpecial (s : Str) : Str :=
  s.filter (fun c =>
    isWordChar c || pyIsSpace c || c = '.' || c = ',' || c = '!' || c = '?' || c = '-')

/-- Scanner for `collapseWs`; the flag records whether the previous
character belonged to a whitespace run already replaced by one space. -/
def collapseWsGo : Bool → Str → Str
  | _, [] => []
  | inRun, c :: cs =>
    if pyIsSpace c then
      if inRun then collapseWsGo true cs else ' ' :: collapseWsGo true cs
    else c :: collapseWsGo false cs

/-- `re.sub(r'\s+', ' ', text)`. -/
def collapseWs (s : Str) : Str := collapseWsGo false s

/-- `utils/text.py, clean_text`: lower-case, drop HTML tags, URLs and
e-mail addresses, drop special characters, collapse whitespace, strip. -/
def clean_text (text : Str) : Str :=
  if text.isEmpty then []
  else
    stripWs (collapseWs (stripSpecial (stripEmails (stripUrls (stripTags (pyLower text))))))

/-- `utils/text.py, STOPWORDS`. -/
def STOPWORDS : List Str :=
  (["a", "about", "above", "after", "again", "against", "all", "am", "an",
    "and", "any", "are", "aren't", "as", "at", "be", "because", "been",
    "before", "being", "below", "between", "both", "but", "by", "can't",
    "cannot", "could", "couldn't", "did", "didn't", "do", "does", "doesn't",
    "doing", "don't", "down", "during", "each", "few", "for", "from",
    "further", "had", "hadn't", "has", "hasn't", "have", "haven't", "having",
    "he", "he'd", "he'll", "he's", "her", "here", "here's", "hers",
    "herself", "him", "himself", "his", "how", "how's", "i", "i'd", "i'll",
    "i'm", "i've", "if", "in", "into", "is", "isn't", "it", "it's", "its",
    "itself", "let's", "me", "more", "most", "mustn't", "my", "myself",
    "no", "nor", "not", "of", "off", "on", "once", "only", "or", "other",
    "ought", "our", "ours", "ourselves", "out", "over", "own", "same",
    "shan't", "she", "she'd", "she'll", "she's", "should", "shouldn't",
    "so", "some", "such", "than", "that", "that's", "the", "their",
    "theirs", "them", "themselves", "then", "there", "there's", "these",
    "they", "they'd", "they'll", "they're", "they've", "this", "those",
    "through", "to", "too", "under", "until", "up", "very", "was",
    "wasn't", "we", "we'd", "we'll", "we're", "we've", "were", "weren't",
    "what", "what's", "when", "when's", "where", "where's", "which",
    "while", "who", "who's", "whom", "why", "why's", "with", "won't",
    "would", "wouldn't", "you", "you'd", "you'll", "you're", "you've",
    "your", "yours", "yourself", "yourselves"] : List String).map (·.toList)

/-! ### The article record

A Python article dictionary, embedded with `Option`-valued fields
(`none` = key absent), so `article.get(k, d)` becomes `field.getD d`. -/

structure PArticle where
  title : Option Str := none
  content : Option Str := none
  url : Option Str := none
  time : Option Str := none
  publishedAt : Option Str := none
  relevance_score : Option ℚ := none
deriving DecidableEq

/-- Stable descending insertion keeping an earlier element in front of
every element whose key is not larger. -/
def insertDesc {α : Type} (key : α → ℚ) (x : α) : List α → List α
  | [] => [x]
  | y :: ys => if key y ≤ key x then x :: y :: ys else y :: insertDesc key x ys

/-- Python `list.sort(key=key, reverse=True)`: the stable descending
sort (CPython's sort is stable; any stable algorithm yields this). -/
def sortDescBy {α : Type} (key : α → ℚ) : List α → List α
  | [] => []
  | x :: xs => insertDesc key x (sortDescBy key xs)

lemma mem_insertDesc {α : Type} {key : α → ℚ} {x a : α} {l : List α}
    (h : a ∈ insertDesc key x l) : a = x ∨ a ∈ l := by
  induction l with
  | nil => simpa [insertDesc] using h
  | cons y ys ih =>
    simp only [insertDesc] at h
    by_cases hk : key y ≤ key x
    · rw [if_pos hk] at h
      simpa using h
    · rw [if_neg hk] at h
      rcases List.mem_cons.mp h with h1 | h1
      · exact Or.inr (by simp [h1])
      · rcases ih h1 with h2 | h2
        · exact Or.inl h2
        · exact Or.inr (by simp [h2])

lemma mem_sortDescBy {α : Type} {key : α → ℚ} {a : α} {l : List α}
    (h : a ∈ sortDescBy key l) : a ∈ l := by
  induction l with
  | nil => simpa [sortDescBy] using h
  | cons x xs ih =>
    simp only [sortDescBy] at h
    rcases mem_insertDesc h with h1 | h1
    · simp [h1]
    · exact List.mem_cons_of_mem _ (ih h1)

/-! ### `services/news_service.py`: query filtering and title dedup -/

/-- The non-stopword query terms of `filter_articles_by_query`
(`clean_text(query).split()` with stopwords removed). -/
def queryTerms (query : Str) : List Str :=
  (splitWs (clean_text query)).filter
    (fun t => ¬ STOPWORDS.contains (pyLower t))

/-- The per-article term match count of `filter_articles_by_query`:
how many query terms occur in the cleaned title+content text. -/
def articleMatchCount (qt : List Str) (a : PArticle) : Nat :=
  let articleText := clean_text ((a.title.getD []) ++ (' ' :: (a.content.getD [])))
  (qt.filter (fun t => containsSub (pyLower t) (pyLower articleText))).length

/-- `services/news_service.py, filter_articles_by_query`: an empty query
returns the list unchanged; otherwise articles matching at least one
non-stopword term get `relevance_score = match_count / len(query_terms)`
and the rest are dropped; the result is sorted by score, descending. -/
def filter_articles_by_query (articles : List PArticle) (query : Str) :
    List PArticle :=
  if query.isEmpty then articles
  else
    let qt := queryTerms query
    let filtered := articles.filterMap (fun a =>
      let mc := articleMatchCount qt a
      if 0 < mc then
        some { a with relevance_score := some ((mc : ℚ) / (qt.length : ℚ)) }
      else none)
    sortDescBy (fun a => a.relevance_score.getD 0) filtered

/-- `services/news_service.py, get_market_news` lines 189–200: drop
articles whose lower-cased title is empty or already seen. -/
def dedupTitlesAux : List Str → List PArticle → List PArticle
  | _, [] => []
  | seen, a :: rest =>
    let t := pyLower (a.title.getD [])
    if t ≠ [] ∧ t ∉ seen then a :: dedupTitlesAux (t :: seen) rest
    else dedupTitlesAux seen rest

/-- The title dedup of `get_market_news`, started with no seen titles. -/
def dedup_articles_by_title (articles : List PArticle) : List PArticle :=
  dedupTitlesAux [] articles

/-- A concrete article used to exercise the query filter. -/
def artOil : PArticle := { title := some ("Crude oil hits 80 dollars".toList) }

/-- C3 counterexample: with a non-empty article list and the empty query,
`filter_articles_by_query` returns the whole list, not the empty list
(`if not query: return articles`). -/
theorem filter_articles_empty_query_counterexample :
    filter_articles_by_query [artOil] [] = [artOil] ∧
    ([artOil] : List PArticle) ≠ [] := ⟨rfl, by simp⟩

/-- C3 (amended).  A non-empty query all of whose cleaned terms are
stopwords yields the empty result; the empty query alone skips filtering
entirely and returns the input unchanged. -/
theorem filter_articles_stopword_query_empty
    (articles : List PArticle) (q : Str) :
    (q ≠ [] → queryTerms q = [] → filter_articles_by_query articles q = []) ∧
    (q = [] → filter_articles_by_query articles q = articles) := by
  constructor
  · intro hq hqt
    unfold filter_articles_by_query
    have hne : q.isEmpty = false := by
      cases q with
      | nil => exact absurd rfl hq
      | cons c cs => rfl
    rw [hne]
    simp only [Bool.false_eq_true, if_false, hqt]
    have hfm : articles.filterMap (fun a =>
        if 0 < articleMatchCount [] a then
          some { a with relevance_score := some ((articleMatchCount [] a : ℚ) / (([] : List Str).length : ℚ)) }
        else none) = [] := by
      rw [List.filterMap_eq_nil_iff]
      intro a _
      simp [articleMatchCount]
    rw [hfm]
    rfl
  · intro hq
    subst hq
    rfl

/-- C3 witness: the query "the" is non-empty, consists only of stopwords,
and filters a non-empty article list down to nothing. -/
theorem filter_articles_stopword_query_empty_witness :
    ("the".toList : Str) ≠ [] ∧ queryTerms ("the".toList) = [] ∧
    filter_articles_by_query [artOil] ("the".toList) = [] := by
  refine ⟨by decide, by decide, ?_⟩
  exact (filter_articles_stopword_query_empty [artOil] ("the".toList)).1
    (by decide) (by decide)

lemma articleMatchCount_le (qt : List Str) (a : PArticle) :
    articleMatchCount qt a ≤ qt.length := by
  unfold articleMatchCount
  exact List.length_filter_le _ _

/-- C9.  Whenever the query is non-empty, every article returned by
`filter_articles_by_query` carries a relevance score in `(0, 1]`, and the
term list the score's denominator comes from is non-empty (the division
`match_count / len(query_terms)` is never a division by zero). -/
theorem relevance_score_in_unit_interval
    (articles : List PArticle) (q : Str) (a : PArticle)
    (hmem : a ∈ filter_articles_by_query articles q) (hq : q ≠ []) :
    0 < (queryTerms q).length ∧
    ∃ s, a.relevance_score = some s ∧ 0 < s ∧ s ≤ 1 := by
  unfold filter_articles_by_query at hmem
  have hne : q.isEmpty = false := by
    cases q with
    | nil => exact absurd rfl hq
    | cons c cs => rfl
  rw [hne] at hmem
  simp only [Bool.false_eq_true, if_false] at hmem
  have hmem2 := mem_sortDescBy hmem
  obtain ⟨b, _, hb⟩ := List.mem_filterMap.mp hmem2
  by_cases hmc : 0 < articleMatchCount (queryTerms q) b
  · rw [if_pos hmc] at hb
    have hle := articleMatchCount_le (queryTerms q) b
    have hLpos : 0 < (queryTerms q).length := by omega
    have ha : { b with relevance_score := some ((articleMatchCount (queryTerms q) b : ℚ) / ((queryTerms q).length : ℚ)) } = a := Option.some.inj hb
    subst ha
    refine ⟨hLpos, (articleMatchCount (queryTerms q) b : ℚ) / ((queryTerms q).length : ℚ), rfl, ?_, ?_⟩
    · exact div_pos (by exact_mod_cast hmc) (by exact_mod_cast hLpos)
    · rw [div_le_one (by exact_mod_cast hLpos)]
      exact_mod_cast hle
  · rw [if_neg hmc] at hb
    exact absurd hb (by simp)

/-- The article `artOil` as the filter returns it for the query "oil". -/
def artOilScored : PArticle := { artOil with relevance_score := some 1 }

lemma filter_artOil_oil :
    filter_articles_by_query [artOil] ("oil".toList) = [artOilScored] := by
  have h1 : articleMatchCount (queryTerms ("oil".toList)) artOil = 1 := by decide
  have h2 : (queryTerms ("oil".toList)).length = 1 := by decide
  have hfil : filter_articles_by_query [artOil] ("oil".toList) =
      [{ artOil with relevance_score := some ((articleMatchCount (queryTerms ("oil".toList)) artOil : ℚ) / ((queryTerms ("oil".toList)).length : ℚ)) }] := rfl
  have hs : ((articleMatchCount (queryTerms ("oil".toList)) artOil : ℚ) / ((queryTerms ("oil".toList)).length : ℚ)) = 1 := by
    rw [h1, h2]
    norm_num
  rw [hfil, hs]
  rfl

/-- C9 witness: for the concrete query "oil" the returned article carries
a score in `(0, 1]` and the query-term list is non-empty. -/
theorem relevance_score_in_unit_interval_witness :
    artOilScored ∈ filter_articles_by_query [artOil] ("oil".toList) ∧
    (0 < (queryTerms ("oil".toList)).length ∧
      ∃ s, artOilScored.relevance_score = some s ∧ 0 < s ∧ s ≤ 1) := by
  have hmem : artOilScored ∈ filter_articles_by_query [artOil] ("oil".toList) := by
    rw [filter_artOil_oil]
    exact List.mem_singleton_self _
  refine ⟨hmem, ?_⟩
  exact relevance_score_in_unit_interval [artOil] ("oil".toList) artOilScored
    hmem (by decide)

lemma dedupTitlesAux_length (l : List PArticle) :
    ∀ seen, (dedupTitlesAux seen l).length ≤ l.length := by
  induction l with
  | nil => intro seen; simp [dedupTitlesAux]
  | cons a rest ih =>
    intro seen
    simp only [dedupTitlesAux]
    by_cases h : pyLower (a.title.getD []) ≠ [] ∧ pyLower (a.title.getD []) ∉ seen
    · rw [if_pos h]
      simpa using ih _
    · rw [if_neg h]
      have := ih seen
      simp only [List.length_cons]
      omega

lemma dedupTitlesAux_idem (l : List PArticle) :
    ∀ seen, dedupTitlesAux seen (dedupTitlesAux seen l) = dedupTitlesAux seen l := by
  induction l with
  | nil => intro seen; rfl
  | cons a rest ih =>
    intro seen
    by_cases h : pyLower (a.title.getD []) ≠ [] ∧ pyLower (a.title.getD []) ∉ seen
    · simp only [dedupTitlesAux, if_pos h]
      rw [ih]
    · simp only [dedupTitlesAux, if_neg h]
      exact ih seen

/-- C5 (amended).  The title dedup of `get_market_news` is idempotent and
never lengthens the list; its key is the lower-cased title only (no
punctuation or whitespace normalization), and empty-titled articles are
dropped. -/
theorem dedup_articles_idempotent_shrinking (l : List PArticle) :
    dedup_articles_by_title (dedup_articles_by_title l) = dedup_articles_by_title l ∧
    (dedup_articles_by_title l).length ≤ l.length :=
  ⟨dedupTitlesAux_idem l [], dedupTitlesAux_length l []⟩

/-- The dedup key as the spec's words describe it: case-folded with
punctuation removed and whitespace normalized.  Stated only to compare
the spec's description against the source's actual key. -/
def specNormalizedTitleKey (t : Str) : Str :=
  stripWs (collapseWs ((pyLower t).filter (fun c => isWordChar c || pyIsSpace c)))

/-- First of two articles whose titles differ only by punctuation. -/
def artSensexBang : PArticle := { title := some ("Sensex rises!".toList) }

/-- Second of two articles whose titles differ only by punctuation. -/
def artSensexPlain : PArticle := { title := some ("Sensex rises".toList) }

/-- C5 counterexample: two articles whose titles agree after
case/punctuation/whitespace normalization but differ as raw strings are
BOTH kept by the source's dedup — the dedup key is not the normalized
title the claim describes, but the lower-cased title alone. -/
theorem dedup_articles_punctuation_counterexample :
    specNormalizedTitleKey ("Sensex rises!".toList) =
      specNormalizedTitleKey ("Sensex rises".toList) ∧
    ("Sensex rises!".toList : Str) ≠ ("Sensex rises".toList : Str) ∧
    dedup_articles_by_title [artSensexBang, artSensexPlain] =
      [artSensexBang, artSensexPlain] := by
  refine ⟨by decide, by decide, by decide⟩

/-! ### `news_providers/base.py`: `normalize_article`

The raw input dictionary is embedded with `Option` fields (`none` = key
absent); the `source` value may be absent, `None`, a string, or a
dictionary (`SrcField`), matching the `isinstance(..., dict)` dispatch in
the source.  The output is embedded as the literal six-entry dictionary
the source builds, so that "exactly these keys" is a provable statement. -/

inductive SrcField where
  | absent
  | svNone
  | svStr (s : Str)
  | svDict (d : List (Str × Option Str))
deriving DecidableEq

/-- A raw article dictionary as a provider hands it to `normalize_article`. -/
structure RawArticle where
  title : Option Str := none
  url : Option Str := none
  publishedAt : Option Str := none
  time : Option Str := none
  content : Option Str := none
  source : SrcField := .absent
deriving DecidableEq

/-- A value of the normalized output dictionary: a string, or the source
object (a dictionary with optional-string values). -/
inductive OutVal where
  | str (s : Str)
  | dict (d : List (Str × Option Str))
deriving DecidableEq

/-- `news_providers/base.py, normalize_article`: the literal dictionary
`{"title": get("title", "No title"), "url": get("url", ""), "source": ...,
"publishedAt": get("publishedAt", ""), "time": get("time", "Recent"),
"content": get("content", "")}`, where the source value is passed through
unchanged when it is already a dict and wrapped as `{"name": ...}`
otherwise. -/
def normalize_article (a : RawArticle) : List (Str × OutVal) :=
  [ ("title".toList, .str (a.title.getD ("No title".toList))),
    ("url".toList, .str (a.url.getD [])),
    ("source".toList, match a.source with
      | .svDict d => .dict d
      | .svStr s => .dict [("name".toList, some s)]
      | .svNone => .dict [("name".toList, none)]
      | .absent => .dict [("name".toList, some ("Unknown".toList))]),
    ("publishedAt".toList, .str (a.publishedAt.getD [])),
    ("time".toList, .str (a.time.getD ("Recent".toList))),
    ("content".toList, .str (a.content.getD [])) ]

/-- C2 counterexample: on the empty input dictionary the `time` key
defaults to "Recent", not to the empty string the claim states; and when
the input's `source` value is already a dictionary it is passed through
unchanged, so a `name` field is not guaranteed (input `{"source": {}}`
yields a source object with no `name` key). -/
theorem normalize_article_defaults_counterexample :
    List.lookup ("time".toList) (normalize_article {}) =
      some (.str ("Recent".toList)) ∧
    ("Recent".toList : Str) ≠ ([] : Str) ∧
    List.lookup ("source".toList) (normalize_article { source := .svDict [] }) =
      some (.dict []) ∧
    List.lookup ("name".toList) ([] : List (Str × Option Str)) = none := by
  refine ⟨by decide, by decide, by decide, rfl⟩

/-- C2 (amended).  `normalize_article` returns exactly the six keys
title, url, source, publishedAt, time, content; absent inputs default to
"No title", "", `{"name": "Unknown"}`, "", "Recent" (not ""), "";
and the source value is a dict with a `name` field whenever the input's
source value was not itself already a dict (a dict is passed through
unchanged). -/
theorem normalize_article_six_keys_defaults (a : RawArticle) :
    (normalize_article a).map Prod.fst =
      ["title".toList, "url".toList, "source".toList,
       "publishedAt".toList, "time".toList, "content".toList] ∧
    (a.title = none → List.lookup ("title".toList) (normalize_article a) =
      some (.str ("No title".toList))) ∧
    (a.url = none → List.lookup ("url".toList) (normalize_article a) =
      some (.str [])) ∧
    (a.source = .absent → List.lookup ("source".toList) (normalize_article a) =
      some (.dict [("name".toList, some ("Unknown".toList))])) ∧
    (a.publishedAt = none → List.lookup ("publishedAt".toList) (normalize_article a) =
      some (.str [])) ∧
    (a.time = none → List.lookup ("time".toList) (normalize_article a) =
      some (.str ("Recent".toList))) ∧
    (a.content = none → List.lookup ("content".toList) (normalize_article a) =
      some (.str [])) ∧
    ((∀ d, a.source ≠ SrcField.svDict d) →
      ∃ nm, List.lookup ("source".toList) (normalize_article a) =
        some (.dict [("name".toList, nm)])) := by
  refine ⟨by simp [normalize_article], ?_, ?_, ?_, ?_, ?_, ?_, ?_⟩
  · intro h; simp [normalize_article, List.lookup, h]
  · intro h; simp [normalize_article, List.lookup, h]
  · intro h; simp [normalize_article, List.lookup, h]
  · intro h; simp [normalize_article, List.lookup, h]
  · intro h; simp [normalize_article, List.lookup, h]
  · intro h; simp [normalize_article, List.lookup, h]
  · intro h
    cases hs : a.source with
    | absent =>
      exact ⟨some ("Unknown".toList), by simp [normalize_article, List.lookup, hs]⟩
    | svNone => exact ⟨none, by simp [normalize_article, List.lookup, hs]⟩
    | svStr s => exact ⟨some s, by simp [normalize_article, List.lookup, hs]⟩
    | svDict d => exact absurd hs (h d)

/-- C2 witness: the amended defaults evaluated on the all-absent input. -/
theorem normalize_article_six_keys_defaults_witness :
    ({} : RawArticle).title = none ∧ ({} : RawArticle).time = none ∧
    List.lookup ("title".toList) (normalize_article {}) =
      some (.str ("No title".toList)) ∧
    List.lookup ("time".toList) (normalize_article {}) =
      some (.str ("Recent".toList)) := by
  refine ⟨rfl, rfl, ?_, ?_⟩
  · exact (normalize_article_six_keys_defaults {}).2.1 rfl
  · exact (normalize_article_six_keys_defaults {}).2.2.2.2.2.1 rfl

/-! ### `services/content_analyzer.py`: the percentage regex and floats

`re.findall(r'([+-]?\d+(?:\.\d+)?)\s*%', text)` is embedded as a
left-to-right scan with maximal munch, which is exactly the backtracking
behaviour of this pattern: shortening `\d+` or the optional fraction
never helps, because the character that follows is then a digit or a
dot, which matches neither `\s*` + `%` nor `%`. -/

/-- An ASCII digit (`\d`). -/
def isDigit (c : Char) : Bool := '0' ≤ c ∧ c ≤ '9'

/-- Match `([+-]?\d+(?:\.\d+)?)\s*%` at the head: the captured group and
the total matched length (at least 2). -/
def matchPctAt (s : Str) : Option (Str × Nat) :=
  let signLen : Nat := if s.take 1 = ['+'] ∨ s.take 1 = ['-'] then 1 else 0
  let sign := s.take signLen
  let s1 := s.drop signLen
  let ds := s1.takeWhile (fun c => isDigit c)
  if ds.isEmpty then none
  else
    let s2 := s1.drop ds.length
    let fracDigits : Str :=
      if s2.take 1 = ['.'] then (s2.drop 1).takeWhile (fun c => isDigit c) else []
    let frac : Str := if fracDigits.isEmpty then [] else '.' :: fracDigits
    let s3 := s2.drop frac.length
    let ws := s3.takeWhile (fun c => pyIsSpace c)
    if (s3.drop ws.length).take 1 = ['%'] then
      some (sign ++ ds ++ frac, signLen + ds.length + frac.length + ws.length + 1)
    else none

/-- Scanner for `findPcts`; the first argument counts characters of a
recognized match still to be skipped. -/
def findPctsGo : Nat → Str → List Str
  | _ + 1, [] => []
  | k + 1, _ :: cs => findPctsGo k cs
  | 0, [] => []
  | 0, c :: cs =>
    match matchPctAt (c :: cs) with
    | some (cap, n) => cap :: findPctsGo (n - 1) cs
    | none => findPctsGo 0 cs

/-- `re.findall` of the percentage pattern: all captured groups, left to
right, non-overlapping. -/
def findPcts (s : Str) : List Str := findPctsGo 0 s

/-- The exceptions the analyzer's `try` block can raise. -/
inductive PyErr where
  | valueError
  | indexError
deriving DecidableEq

/-- Python `l[i]` (raises `IndexError` when out of range). -/
def pyIndex {α : Type} (l : List α) (i : Nat) : Except PyErr α :=
  match l[i]? with
  | some x => .ok x
  | none => .error .indexError

/-- A Python float parsed from a decimal literal, kept exact: sign,
integer digits, fraction digits.  Exact-decimal model of the float: it
agrees with CPython's value and `str()` rendering on every literal the
percentage regex can capture that is the shortest representation of its
float (all literals of ≤ 15 significant digits in normal range). -/
structure Dec where
  neg : Bool
  ip : Str
  fp : Str
deriving DecidableEq

/-- Value of a digit string, most significant first. -/
def natOfDigits : Str → Nat
  | [] => 0
  | c :: cs => (c.toNat - '0'.toNat) * 10 ^ cs.length + natOfDigits cs

/-- The rational value of a parsed float. -/
def Dec.toRat (d : Dec) : ℚ :=
  let mag : ℚ := (natOfDigits d.ip : ℚ) + (natOfDigits d.fp : ℚ) / ((10 : ℚ) ^ d.fp.length)
  if d.neg then -mag else mag

/-- The source's `change > 0` on the parsed float, decided on the digits:
positive sign and some non-zero digit. -/
def Dec.isPos (d : Dec) : Bool :=
  (!d.neg) && (d.ip.any (fun c => c ≠ '0') || d.fp.any (fun c => c ≠ '0'))

/-- The digits-and-fraction part of `pyFloat`, after the optional sign. -/
def pyFloatTail (neg : Bool) (s1 : Str) : Except PyErr Dec :=
  let ds := s1.takeWhile (fun c => isDigit c)
  let s2 := s1.drop ds.length
  if s2.isEmpty then
    (if ds.isEmpty then .error .valueError else .ok ⟨neg, ds, []⟩)
  else if s2.take 1 = ['.'] then
    let fs := (s2.drop 1).takeWhile (fun c => isDigit c)
    if ¬ ((s2.drop 1).drop fs.length).isEmpty then .error .valueError
    else if ds.isEmpty ∧ fs.isEmpty then .error .valueError
    else .ok ⟨neg, ds, fs⟩
  else .error .valueError

/-- Python `float(s)` on decimal literals `[+-]? (\d+ (\.\d*)? | \.\d+)`
(the shapes reachable from the percentage regex's captures); anything
else raises `ValueError`.  Unsupported float syntax (exponents, inf/nan,
surrounding whitespace) is not reachable here. -/
def pyFloat (s : Str) : Except PyErr Dec :=
  pyFloatTail (decide (s.take 1 = ['-']))
    (s.drop (if s.take 1 = ['+'] ∨ s.take 1 = ['-'] then 1 else 0))

/-- Python `str(abs(float))` on the exact-decimal model: leading zeros
of the integer part and trailing zeros of the fraction dropped, `.0`
appended when the fraction is empty. -/
def decAbsRepr (d : Dec) : Str :=
  let ipn := d.ip.dropWhile (fun c => c = '0')
  let ip' := if ipn.isEmpty then ['0'] else ipn
  let fpn := (d.fp.reverse.dropWhile (fun c => c = '0')).reverse
  if fpn.isEmpty then ip' ++ ['.', '0'] else ip' ++ '.' :: fpn

/-! ### `services/content_analyzer.py`: term tables -/

/-- `ContentAnalyzer.term_mapping`, in insertion order. -/
def TERM_MAPPING : List (Str × Str) :=
  ([("dow", "Dow Jones"), ("djia", "Dow Jones"), ("nasdaq", "NASDAQ"),
    ("s&p", "S&P 500"), ("s&p 500", "S&P 500"), ("nyse", "NYSE"),
    ("russell", "Russell"), ("sensex", "Sensex"), ("nifty", "Nifty"),
    ("bse", "BSE"), ("nse", "NSE"), ("rbi", "RBI"), ("sebi", "SEBI"),
    ("fed", "Federal Reserve"), ("federal reserve", "Federal Reserve"),
    ("wall street", "Wall Street"), ("wall st", "Wall Street"),
    ("dalal street", "Dalal Street")] : List (String × String)).map
    (fun p => (p.1.toList, p.2.toList))

/-- The `index_mapping` local to `_extract_market_movements`. -/
def INDEX_MAPPING : List (Str × List Str) :=
  [("us".toList, (["dow", "nasdaq", "s&p", "s&p 500", "djia"] : List String).map (·.toList)),
   ("india".toList, (["sensex", "nifty", "bse", "nse"] : List String).map (·.toList))]

/-- `ContentAnalyzer.market_terms['global']`. -/
def MARKET_TERMS_GLOBAL : List Str :=
  (["market", "stock", "equity", "trade", "investor", "economy",
    "bull", "bear", "volatile", "rally", "correction", "crash",
    "investment", "dividend", "yield", "bond", "treasury", "etf",
    "index", "portfolio", "fund", "asset", "derivative", "hedge",
    "inflation", "recession", "growth", "interest rate", "fed",
    "central bank"] : List String).map (·.toList)

/-- `ContentAnalyzer.market_terms['us']` (the source lists `nyse` twice). -/
def MARKET_TERMS_US : List Str :=
  (["dow", "nasdaq", "s&p", "s&p 500", "djia", "nyse", "wall street",
    "russell", "ftse", "dax", "federal reserve", "fed", "powell",
    "treasury", "yellen", "sec", "nyse", "wall st"] : List String).map (·.toList)

/-- `ContentAnalyzer.market_terms['india']`. -/
def MARKET_TERMS_INDIA : List Str :=
  (["sensex", "nifty", "bse", "nse", "rbi", "sebi", "dalal street",
    "bombay stock exchange", "national stock exchange",
    "reserve bank of india"] : List String).map (·.toList)

/-! ### `_extract_reason` and the movement-insight text -/

/-- The direction-neutral reason indicators. -/
def REASON_BASE : List Str :=
  (["as", "after", "due to", "following", "amid", "on",
    "because of"] : List String).map (·.toList)

/-- Indicators added for positive movements. -/
def REASON_POS : List Str :=
  (["boosted by", "lifted by", "supported by", "driven by"] : List String).map (·.toList)

/-- Indicators added for negative movements. -/
def REASON_NEG : List Str :=
  (["dragged by", "pressured by", "weighed by", "hit by"] : List String).map (·.toList)

/-- The indicator loop of `_extract_reason`: first indicator found as a
substring wins; the text after it is stripped, capped at 8 words,
right-stripped of `.,;:` and prefixed with the indicator. -/
def extractReasonGo : List Str → Str → Str
  | [], _ => []
  | ind :: rest, text =>
    if containsSub ind text then
      match splitFirst ind text with
      | some (_, tailPart) =>
        let rt := stripWs tailPart
        let ws := splitWs rt
        let rt1 := if 8 < ws.length then joinSep [' '] (ws.take 8) else rt
        let rt2 := rstripChars ('.' :: ',' :: ';' :: ':' :: []) rt1
        ind ++ ' ' :: rt2
      | none => extractReasonGo rest text
    else extractReasonGo rest text

/-- `ContentAnalyzer._extract_reason`. -/
def extract_reason (text : Str) (positive : Bool) : Str :=
  extractReasonGo (REASON_BASE ++ (if positive then REASON_POS else REASON_NEG)) text

/-- An ASCII letter. -/
def isAsciiAlpha (c : Char) : Bool := ('a' ≤ c ∧ c ≤ 'z') ∨ ('A' ≤ c ∧ c ≤ 'Z')

/-- Scanner for `pyTitle`; the flag records whether the previous
character was alphabetic. -/
def pyTitleGo : Bool → Str → Str
  | _, [] => []
  | prevAlpha, c :: cs =>
    if isAsciiAlpha c then
      (if prevAlpha then pyLowerChar c else pyUpperChar c) :: pyTitleGo true cs
    else c :: pyTitleGo false cs

/-- Python `s.title()` (ASCII fragment). -/
def pyTitle (s : Str) : Str := pyTitleGo false s

/-- Lines 253–269 of `content_analyzer.py`: the insight sentence built
for one detected movement, branching on `change > 0`. -/
def mkMovementInsight (indexName : Str) (change : Dec) (window : Str) : Str :=
  if change.isPos then
    let reason := extract_reason window true
    if reason.isEmpty then
      indexName ++ " is up ".toList ++ decAbsRepr change ++ "%.".toList
    else
      indexName ++ " gained ".toList ++ decAbsRepr change ++ "% ".toList ++ reason ++ ".".toList
  else
    let reason := extract_reason window false
    if reason.isEmpty then
      indexName ++ " is down ".toList ++ decAbsRepr change ++ "%.".toList
    else
      indexName ++ " fell ".toList ++ decAbsRepr change ++ "% ".toList ++ reason ++ ".".toList

/-- The `try` block guarding one movement insight: index `[0]` of the
window's percentage matches, `float()` on it, then the insight text.
`ValueError`/`IndexError` surface in the `Except`; the caller's
`except (ValueError, IndexError)` hooks the error case. -/
def tryMovement (windowMatches : List Str) (window : Str) (indexName : Str) :
    Except PyErr Str := do
  let capture ← pyIndex windowMatches 0
  let change ← pyFloat capture
  pure (mkMovementInsight indexName change window)

/-! ### `_extract_market_movements` -/

/-- The loop state of `_extract_market_movements`: the collected insight
sentences and the set of term keys already reported. -/
structure MovState where
  insights : List Str
  reported : List Str
deriving DecidableEq

/-- The ±50-character window around the first occurrence of a term
(`text[max(0, pos-50) : min(len(text), pos+50)]`). -/
def termWindow (text idx : Str) : Str :=
  let pos := (findSub (pyLower idx) text).getD 0
  (text.take (min text.length (pos + 50))).drop (pos - 50)

/-- `self.term_mapping.get(idx_lower, idx.title())`. -/
def termName (idx : Str) : Str :=
  (List.lookup (pyLower idx) TERM_MAPPING).getD (pyTitle idx)

/-- The guarded `try` block for one term against one article text. -/
def termTry (text idx : Str) : Except PyErr Str :=
  tryMovement (findPcts (termWindow text idx)) (termWindow text idx) (termName idx)

/-- The inner `for idx in self.term_mapping.keys()` loop of
`_extract_market_movements`, for one article text: skip terms outside
the country restriction, terms already reported, and terms not in the
text; otherwise search the ±50-character window around the term's first
occurrence for a percentage and append one insight; `break` once 3
insights exist; parse failures (`except (ValueError, IndexError)`)
continue with the next term. -/
def movTermLoop (checkIndices : List Str) (text : Str) :
    MovState → List Str → MovState
  | st, [] => st
  | st, idx :: rest =>
    if ¬ checkIndices.isEmpty ∧ pyLower idx ∉ checkIndices then
      movTermLoop checkIndices text st rest
    else if pyLower idx ∈ st.reported then
      movTermLoop checkIndices text st rest
    else if containsSub (pyLower idx) text then
      if ¬ (findPcts (termWindow text idx)).isEmpty then
        match termTry text idx with
        | .ok ins =>
          let st' : MovState := ⟨st.insights ++ [ins], pyLower idx :: st.reported⟩
          if 3 ≤ st'.insights.length then st'
          else movTermLoop checkIndices text st' rest
        | .error _ => movTermLoop checkIndices text st rest
      else movTermLoop checkIndices text st rest
    else movTermLoop checkIndices text st rest

/-- The outer `for article in articles` loop of
`_extract_market_movements`: build the lower-cased title+content text,
run the term loop when the text has a percentage match, `break` once 3
insights exist. -/
def movArticleLoop (checkIndices : List Str) : MovState → List PArticle → MovState
  | st, [] => st
  | st, a :: rest =>
    let text := pyLower (a.title.getD []) ++ ' ' :: pyLower (a.content.getD [])
    if ¬ (findPcts text).isEmpty then
      let st' := movTermLoop checkIndices text st (TERM_MAPPING.map Prod.fst)
      if 3 ≤ st'.insights.length then st'
      else movArticleLoop checkIndices st' rest
    else movArticleLoop checkIndices st rest

/-- The country restriction of `_extract_market_movements`
(`if country and country in index_mapping`). -/
def checkIndicesFor (country : Option Str) : List Str :=
  match country with
  | some c => if c.isEmpty then [] else (List.lookup c INDEX_MAPPING).getD []
  | none => []

/-- `ContentAnalyzer._extract_market_movements`. -/
def extract_market_movements (articles : List PArticle) (country : Option Str) :
    List Str :=
  (movArticleLoop (checkIndicesFor country) ⟨[], []⟩ articles).insights

/-! ### Themes, key points, market insight, comprehensive analysis -/

/-- `term_counts[term] = term_counts.get(term, 0) + 1` on an
insertion-ordered dictionary. -/
def upsertCount : List (Str × Nat) → Str → List (Str × Nat)
  | [], k => [(k, 1)]
  | (k', n) :: rest, k =>
    if k' = k then (k', n + 1) :: rest else (k', n) :: upsertCount rest k

/-- `ContentAnalyzer._identify_themes`: words of length > 3 from cleaned
titles, counted; words occurring at least twice, most frequent first,
top 3. -/
def identify_themes (articles : List PArticle) : List Str :=
  let allWords := (articles.map (fun a =>
    ((splitWs (clean_text (a.title.getD []))).filter (fun w => 3 < w.length)).map pyLower)).flatten
  let wordCounts := allWords.foldl upsertCount []
  let themes := (wordCounts.filter (fun p => 2 ≤ p.2)).map Prod.fst
  (sortDescBy (fun w => (((List.lookup w wordCounts).getD 0 : Nat) : ℚ)) themes).take 3

/-- The `market_terms` dictionary lookup. -/
def marketTermsFor (c : Str) : Option (List Str) :=
  if c = "global".toList then some MARKET_TERMS_GLOBAL
  else if c = "us".toList then some MARKET_TERMS_US
  else if c = "india".toList then some MARKET_TERMS_INDIA
  else none

/-- `ContentAnalyzer.generate_market_insight`: movement insights, themes
sentence, market-focus sentence, joined by spaces; fixed fallbacks for
no articles / no insights.  With no (or unknown) country the source
extends the global terms with every per-country list including the
global one again, so `terms_to_check` then holds the global terms twice
— kept faithfully. -/
def generate_market_insight (articles : List PArticle) (country : Option Str) : Str :=
  if articles.isEmpty then "No recent market data available for insights.".toList
  else
    let allCountryTerms := MARKET_TERMS_GLOBAL ++ MARKET_TERMS_US ++ MARKET_TERMS_INDIA
    let termsToCheck := MARKET_TERMS_GLOBAL ++
      (match country with
       | some c =>
         if c.isEmpty then allCountryTerms
         else match marketTermsFor c with
           | some ts => ts
           | none => allCountryTerms
       | none => allCountryTerms)
    let termCounts := articles.foldl (fun m a =>
      let text := pyLower (a.title.getD []) ++ ' ' :: pyLower (a.content.getD [])
      termsToCheck.foldl (fun mm t =>
        if containsSub (pyLower t) text then upsertCount mm t else mm) m) []
    let topTerms := (sortDescBy (fun p => ((p.2 : Nat) : ℚ)) termCounts).take 5
    let movementInsights := extract_market_movements articles country
    let themes := identify_themes articles
    let insightsA := movementInsights
    let insightsB :=
      if ¬ themes.isEmpty then
        insightsA ++ ["Key themes: ".toList ++ joinSep (", ".toList) themes ++ ".".toList]
      else insightsA
    let insightsC :=
      if ¬ topTerms.isEmpty then
        insightsB ++ ["Market focus: ".toList ++ joinSep (", ".toList) (topTerms.map (fun p => (List.lookup (pyLower p.1) TERM_MAPPING).getD (pyTitle p.1))) ++ ".".toList]
      else insightsB
    if ¬ insightsC.isEmpty then joinSep [' '] insightsC
    else "No significant market insights detected from recent news.".toList

/-- Scanner dropping every occurrence of `sub` (Python
`s.replace(sub, '')`); the skip counter handles a just-matched span. -/
def replaceDropGo (sub : Str) : Nat → Str → Str
  | _ + 1, [] => []
  | k + 1, _ :: cs => replaceDropGo sub k cs
  | 0, [] => []
  | 0, c :: cs =>
    if isPrefixB sub (c :: cs) ∧ ¬ sub.isEmpty then
      replaceDropGo sub (sub.length - 1) cs
    else c :: replaceDropGo sub 0 cs

/-- Python `s.replace(sub, '')` for non-empty `sub`. -/
def pyReplaceDrop (sub s : Str) : Str := replaceDropGo sub 0 s

/-- The title loop of `extract_key_points`: skip empty and (lower-cased)
duplicate titles, clean `'...'` out and strip. -/
def extractKeyPointsGo : List Str → List PArticle → List Str
  | _, [] => []
  | seen, a :: rest =>
    let title := a.title.getD []
    if title.isEmpty then extractKeyPointsGo seen rest
    else if pyLower title ∈ seen then extractKeyPointsGo seen rest
    else stripWs (pyReplaceDrop ("...".toList) title) ::
      extractKeyPointsGo (pyLower title :: seen) rest

/-- `ContentAnalyzer.extract_key_points`. -/
def extract_key_points (articles : List PArticle) (count : Nat) : List Str :=
  if articles.isEmpty then [] else (extractKeyPointsGo [] articles).take count

/-- The result dictionary of `generate_comprehensive_analysis`. -/
structure Analysis where
  summary : Str
  key_points : List Str
  insights : Str
  trending_topics : List Str
deriving DecidableEq

/-- The summary line "Current market focus is on ...". -/
def currentFocusLine (trending : List Str) : Str :=
  "Current market focus is on ".toList ++ joinSep (", ".toList) (trending.take 3) ++ ".".toList

/-- `ContentAnalyzer.generate_comprehensive_analysis`. -/
def generate_comprehensive_analysis (articles : List PArticle) (query : Option Str) :
    Analysis :=
  if articles.isEmpty then
    ⟨"No articles available for analysis.".toList, [], [], []⟩
  else
    let keyPoints := extract_key_points articles 3
    let insights := generate_market_insight articles none
    let termCounts := articles.foldl (fun m a =>
      let text := clean_text ((a.title.getD []) ++ ' ' :: (a.content.getD []))
      MARKET_TERMS_GLOBAL.foldl (fun mm t =>
        if containsSub (pyLower t) (pyLower text) then upsertCount mm t else mm) m) []
    let trending := ((sortDescBy (fun p => ((p.2 : Nat) : ℚ)) termCounts).take 5).map
      (fun p => (List.lookup p.1 TERM_MAPPING).getD (pyTitle p.1))
    let summary : Str := match query with
      | some q =>
        if q.isEmpty then
          (if ¬ trending.isEmpty then currentFocusLine trending
           else "Here's the latest from the financial markets:".toList)
        else "Here's what I found about '".toList ++ q ++ "':".toList
      | none =>
        if ¬ trending.isEmpty then currentFocusLine trending
        else "Here's the latest from the financial markets:".toList
    ⟨summary, keyPoints, insights, trending⟩

/-! ### C4: the movement-insight cap and per-term dedup -/

/-- C4 counterexample: one article mentioning "S&P 500" yields TWO
insights naming the index "S&P 500" — the terms `s&p` and `s&p 500` are
distinct keys of `term_mapping` with the same canonical index name, both
occur in the text, and the dedup set tracks term keys, not index names. -/
theorem extract_movements_duplicate_index_counterexample :
    extract_market_movements [{ title := some ("S&P 500 rose 1.2%".toList) }] none =
      ["S&P 500 is up 1.2%.".toList, "S&P 500 is up 1.2%.".toList] := by decide

lemma movTermLoop_nil (ci : List Str) (text : Str) (st : MovState) :
    movTermLoop ci text st [] = st := rfl

lemma movTermLoop_cons (ci : List Str) (text : Str) (st : MovState) (idx : Str)
    (rest : List Str) :
    movTermLoop ci text st (idx :: rest) =
      (if ¬ ci.isEmpty ∧ pyLower idx ∉ ci then movTermLoop ci text st rest
       else if pyLower idx ∈ st.reported then movTermLoop ci text st rest
       else if containsSub (pyLower idx) text then
         (if ¬ (findPcts (termWindow text idx)).isEmpty then
           (match termTry text idx with
            | .ok ins =>
              (if 3 ≤ (⟨st.insights ++ [ins], pyLower idx :: st.reported⟩ : MovState).insights.length then
                (⟨st.insights ++ [ins], pyLower idx :: st.reported⟩ : MovState)
               else movTermLoop ci text ⟨st.insights ++ [ins], pyLower idx :: st.reported⟩ rest)
            | .error _ => movTermLoop ci text st rest)
          else movTermLoop ci text st rest)
       else movTermLoop ci text st rest) := rfl

lemma movTermLoop_invariant (ci : List Str) (text : Str) (terms : List Str) :
    ∀ st : MovState, st.insights.length < 3 →
      st.insights.length = st.reported.length → st.reported.Nodup →
      ((movTermLoop ci text st terms).insights.length ≤ 3 ∧
       (movTermLoop ci text st terms).insights.length =
         (movTermLoop ci text st terms).reported.length ∧
       (movTermLoop ci text st terms).reported.Nodup) := by
  induction terms with
  | nil =>
    intro st h1 h2 h3
    rw [movTermLoop_nil]
    exact ⟨by omega, h2, h3⟩
  | cons idx rest ih =>
    intro st h1 h2 h3
    rw [movTermLoop_cons]
    by_cases g1 : ¬ ci.isEmpty ∧ pyLower idx ∉ ci
    · rw [if_pos g1]
      exact ih st h1 h2 h3
    · rw [if_neg g1]
      by_cases g2 : pyLower idx ∈ st.reported
      · rw [if_pos g2]
        exact ih st h1 h2 h3
      · rw [if_neg g2]
        by_cases g3 : containsSub (pyLower idx) text = true
        · rw [if_pos g3]
          by_cases g4 : ¬ (findPcts (termWindow text idx)).isEmpty
          · rw [if_pos g4]
            cases htry : termTry text idx with
            | ok ins =>
              by_cases g5 : 3 ≤ (st.insights ++ [ins]).length
              · simp only [if_pos g5]
                refine ⟨?_, ?_, List.Nodup.cons g2 h3⟩
                · simp only [List.length_append, List.length_cons,
                    List.length_nil] at g5 ⊢
                  omega
                · simp only [List.length_append, List.length_cons, List.length_nil]
                  omega
              · simp only [if_neg g5]
                apply ih
                · simp only [List.length_append, List.length_cons,
                    List.length_nil] at g5 ⊢
                  omega
                · simp only [List.length_append, List.length_cons, List.length_nil]
                  omega
                · exact List.Nodup.cons g2 h3
            | error e =>
              exact ih st h1 h2 h3
          · rw [if_neg g4]
            exact ih st h1 h2 h3
        · rw [if_neg g3]
          exact ih st h1 h2 h3

lemma movArticleLoop_nil (ci : List Str) (st : MovState) :
    movArticleLoop ci st [] = st := rfl

lemma movArticleLoop_cons (ci : List Str) (st : MovState) (a : PArticle)
    (rest : List PArticle) :
    movArticleLoop ci st (a :: rest) =
      (if ¬ (findPcts (pyLower (a.title.getD []) ++ ' ' :: pyLower (a.content.getD []))).isEmpty then
        (if 3 ≤ (movTermLoop ci (pyLower (a.title.getD []) ++ ' ' :: pyLower (a.content.getD [])) st (TERM_MAPPING.map Prod.fst)).insights.length
         then movTermLoop ci (pyLower (a.title.getD []) ++ ' ' :: pyLower (a.content.getD [])) st (TERM_MAPPING.map Prod.fst)
         else movArticleLoop ci (movTermLoop ci (pyLower (a.title.getD []) ++ ' ' :: pyLower (a.content.getD [])) st (TERM_MAPPING.map Prod.fst)) rest)
       else movArticleLoop ci st rest) := rfl

lemma movArticleLoop_invariant (ci : List Str) (articles : List PArticle) :
    ∀ st : MovState, st.insights.length < 3 →
      st.insights.length = st.reported.length → st.reported.Nodup →
      ((movArticleLoop ci st articles).insights.length ≤ 3 ∧
       (movArticleLoop ci st articles).insights.length =
         (movArticleLoop ci st articles).reported.length ∧
       (movArticleLoop ci st articles).reported.Nodup) := by
  induction articles with
  | nil =>
    intro st h1 h2 h3
    rw [movArticleLoop_nil]
    exact ⟨by omega, h2, h3⟩
  | cons a rest ih =>
    intro st h1 h2 h3
    rw [movArticleLoop_cons]
    by_cases gm : ¬ (findPcts (pyLower (a.title.getD []) ++ ' ' :: pyLower (a.content.getD []))).isEmpty
    · rw [if_pos gm]
      have hT := movTermLoop_invariant ci
        (pyLower (a.title.getD []) ++ ' ' :: pyLower (a.content.getD []))
        (TERM_MAPPING.map Prod.fst) st h1 h2 h3
      by_cases gb : 3 ≤ (movTermLoop ci (pyLower (a.title.getD []) ++ ' ' :: pyLower (a.content.getD [])) st (TERM_MAPPING.map Prod.fst)).insights.length
      · rw [if_pos gb]
        exact hT
      · rw [if_neg gb]
        exact ih _ (by omega) hT.2.1 hT.2.2
    · rw [if_neg gm]
      exact ih st h1 h2 h3

/-- C4 (amended).  Movement-insight extraction collects at most 3
insights, and never processes the same TERM KEY twice: each insight
corresponds to exactly one term key added to the reported set, and the
reported keys are pairwise distinct.  (Two distinct keys aliasing the
same canonical index name — such as `s&p` and `s&p 500` — may each
produce an insight, so the same index NAME can appear twice; see the
counterexample.) -/
theorem extract_movements_cap_and_term_dedup
    (articles : List PArticle) (country : Option Str) :
    extract_market_movements articles country =
      (movArticleLoop (checkIndicesFor country) ⟨[], []⟩ articles).insights ∧
    (extract_market_movements articles country).length ≤ 3 ∧
    (extract_market_movements articles country).length =
      (movArticleLoop (checkIndicesFor country) ⟨[], []⟩ articles).reported.length ∧
    (movArticleLoop (checkIndicesFor country) ⟨[], []⟩ articles).reported.Nodup := by
  have h := movArticleLoop_invariant (checkIndicesFor country) articles
    ⟨[], []⟩ (by simp) rfl List.nodup_nil
  exact ⟨rfl, h.1, h.2.1, h.2.2⟩

/-! ### C10: a zero (or negative) parsed change is reported as "down" -/

lemma natOfDigits_eq_zero_all_zero {l : Str} (hd : ∀ c ∈ l, isDigit c = true)
    (h : natOfDigits l = 0) : ∀ c ∈ l, c = '0' := by
  induction l with
  | nil => intro c hc; simp at hc
  | cons c cs ih =>
    intro d hdmem
    have hc : isDigit c = true := hd c (by simp)
    simp only [natOfDigits, Nat.add_eq_zero] at h
    obtain ⟨h1, h2⟩ := h
    rcases List.mem_cons.mp hdmem with rfl | hmem
    · have hpow : 0 < 10 ^ cs.length := Nat.pos_pow_of_pos _ (by omega)
      have hc0 : d.toNat - '0'.toNat = 0 := by
        rcases Nat.mul_eq_zero.mp h1 with h' | h'
        · exact h'
        · omega
      simp only [isDigit, decide_eq_true_eq] at hc
      have hle : '0'.toNat ≤ d.toNat := by
        have h' := hc.1
        rw [Char.le_def] at h'
        exact h'
      have hdn : d.toNat = '0'.toNat := by omega
      have h3 := congrArg Char.ofNat hdn
      simpa [Char.ofNat_toNat] using h3
    · exact ih (fun x hx => hd x (List.mem_cons_of_mem _ hx)) h2 d hmem

lemma Dec.isPos_false_of_toRat_nonpos {d : Dec}
    (hip : ∀ c ∈ d.ip, isDigit c = true) (hfp : ∀ c ∈ d.fp, isDigit c = true)
    (h : d.toRat ≤ 0) : d.isPos = false := by
  by_cases hneg : d.neg
  · simp [Dec.isPos, hneg]
  · have hmag : d.toRat =
        (natOfDigits d.ip : ℚ) + (natOfDigits d.fp : ℚ) / ((10 : ℚ) ^ d.fp.length) := by
      simp [Dec.toRat, hneg]
    have hpow : (0 : ℚ) < (10 : ℚ) ^ d.fp.length := by positivity
    have h1 : (0 : ℚ) ≤ (natOfDigits d.ip : ℚ) := by positivity
    have h2 : (0 : ℚ) ≤ (natOfDigits d.fp : ℚ) / ((10 : ℚ) ^ d.fp.length) := by positivity
    have hip0 : (natOfDigits d.ip : ℚ) = 0 := by
      rw [hmag] at h
      linarith
    have hfp0 : (natOfDigits d.fp : ℚ) / ((10 : ℚ) ^ d.fp.length) = 0 := by
      rw [hmag] at h
      linarith
    have hipz : natOfDigits d.ip = 0 := by exact_mod_cast hip0
    have hfpz : natOfDigits d.fp = 0 := by
      have := (div_eq_zero_iff.mp hfp0).resolve_right (by positivity)
      exact_mod_cast this
    have hallip := natOfDigits_eq_zero_all_zero hip hipz
    have hallfp := natOfDigits_eq_zero_all_zero hfp hfpz
    simp only [Dec.isPos, hneg, Bool.not_false, Bool.true_and, Bool.or_eq_false_iff]
    constructor
    · rw [List.any_eq_false]
      intro c hc
      simp [hallip c hc]
    · rw [List.any_eq_false]
      intro c hc
      simp [hallfp c hc]

/-- C10.  A parsed percentage change that is zero or negative (in
particular the literal "0%") is classified as a downward movement: the
gain branch requires `change > 0`, so the insight sentence uses the
"fell" / "is down" wording. -/
theorem nonpositive_change_reported_down (name : Str) (d : Dec) (window : Str)
    (hip : ∀ c ∈ d.ip, isDigit c = true) (hfp : ∀ c ∈ d.fp, isDigit c = true)
    (hnp : d.toRat ≤ 0) :
    (∃ rest, mkMovementInsight name d window = name ++ (" fell ".toList) ++ rest) ∨
    (∃ rest, mkMovementInsight name d window = name ++ (" is down ".toList) ++ rest) := by
  have hpos : d.isPos = false := Dec.isPos_false_of_toRat_nonpos hip hfp hnp
  unfold mkMovementInsight
  rw [hpos]
  simp only [Bool.false_eq_true, if_false]
  by_cases hr : (extract_reason window false).isEmpty
  · rw [if_pos hr]
    right
    exact ⟨decAbsRepr d ++ "%.".toList, by simp⟩
  · rw [if_neg hr]
    left
    exact ⟨decAbsRepr d ++ "% ".toList ++ extract_reason window false ++ ".".toList, by simp⟩

/-- C10 witness: the parsed change "0" (from a "0%" match) is
non-positive and yields the down wording, concretely
"Sensex is down 0.0%.". -/
theorem nonpositive_change_reported_down_witness :
    Dec.toRat ⟨false, ['0'], []⟩ ≤ 0 ∧
    pyFloat ("0".toList) = Except.ok ⟨false, ['0'], []⟩ ∧
    mkMovementInsight ("Sensex".toList) ⟨false, ['0'], []⟩
      ("sensex slips 0% today".toList) = "Sensex is down 0.0%.".toList ∧
    ((∃ rest, mkMovementInsight ("Sensex".toList) ⟨false, ['0'], []⟩
        ("sensex slips 0% today".toList) =
        "Sensex".toList ++ (" fell ".toList) ++ rest) ∨
     (∃ rest, mkMovementInsight ("Sensex".toList) ⟨false, ['0'], []⟩
        ("sensex slips 0% today".toList) =
        "Sensex".toList ++ (" is down ".toList) ++ rest)) := by
  have hz : Dec.toRat ⟨false, ['0'], []⟩ ≤ 0 := by
    simp [Dec.toRat, natOfDigits]
  refine ⟨hz, rfl, by decide, ?_⟩
  exact nonpositive_change_reported_down ("Sensex".toList) ⟨false, ['0'], []⟩
    ("sensex slips 0% today".toList) (by decide) (by decide) hz

/-! ### C6: the empty-article analysis and the guarded float parse -/

lemma takeWhile_append_of_all {p : Char → Bool} {l r : Str}
    (h : ∀ c ∈ l, p c = true) :
    (l ++ r).takeWhile p = l ++ r.takeWhile p := by
  induction l with
  | nil => simp
  | cons c cs ih =>
    simp [List.takeWhile_cons, h c (by simp),
      ih (fun x hx => h x (List.mem_cons_of_mem _ hx))]

lemma takeWhile_all {p : Char → Bool} {l : Str} (h : ∀ c ∈ l, p c = true) :
    l.takeWhile p = l := by
  have := takeWhile_append_of_all (r := []) h
  simpa using this

lemma pyFloatTail_ok (neg : Bool) (c : Char) (cs fs frac : Str)
    (hdsd : ∀ x ∈ c :: cs, isDigit x = true)
    (hfsd : ∀ x ∈ fs, isDigit x = true)
    (hfrac : frac = [] ∨ (frac = '.' :: fs ∧ ¬ fs.isEmpty)) :
    ∃ d, pyFloatTail neg ((c :: cs) ++ frac) = .ok d := by
  rcases hfrac with rfl | ⟨rfl, hfs⟩
  · have htwa : (c :: cs).takeWhile (fun x => isDigit x) = c :: cs :=
      takeWhile_all hdsd
    refine ⟨⟨neg, c :: cs, []⟩, ?_⟩
    rw [List.append_nil]
    simp only [pyFloatTail, htwa]
    simp [List.drop_length]
  · have hdot : ('.' :: fs).takeWhile (fun x => isDigit x) = [] := by
      rw [List.takeWhile_cons]
      simp only [show isDigit '.' = false from by decide]
      rfl
    have htwa : ((c :: cs) ++ ('.' :: fs)).takeWhile (fun x => isDigit x) = c :: cs := by
      rw [takeWhile_append_of_all hdsd, hdot, List.append_nil]
    refine ⟨⟨neg, c :: cs, fs⟩, ?_⟩
    simp only [pyFloatTail, htwa, List.drop_left]
    simp [takeWhile_all hfsd, List.drop_length, hfs]

/-- Any string of the capture shape `[+-]? digits (\. digits)?` parses
under `pyFloat`. -/
lemma pyFloat_ok_shape (sign fs frac : Str) (c : Char) (cs : Str)
    (hsign : sign = [] ∨ sign = ['+'] ∨ sign = ['-'])
    (hdsd : ∀ x ∈ c :: cs, isDigit x = true)
    (hfsd : ∀ x ∈ fs, isDigit x = true)
    (hfrac : frac = [] ∨ (frac = '.' :: fs ∧ ¬ fs.isEmpty)) :
    ∃ d, pyFloat (sign ++ (c :: cs) ++ frac) = .ok d := by
  have hcd : isDigit c = true := hdsd c (by simp)
  have hcplus : ¬ ([c] : Str) = ['+'] := by
    intro he
    have hc : c = '+' := by simpa using he
    rw [hc] at hcd
    exact absurd hcd (by decide)
  have hcminus : ¬ ([c] : Str) = ['-'] := by
    intro he
    have hc : c = '-' := by simpa using he
    rw [hc] at hcd
    exact absurd hcd (by decide)
  rcases hsign with rfl | rfl | rfl
  · have ht1 : ((c :: cs) ++ frac).take 1 = [c] := by simp
    rw [List.nil_append, pyFloat, ht1]
    rw [if_neg (by tauto)]
    rw [decide_eq_false hcminus]
    simpa using pyFloatTail_ok false c cs fs frac hdsd hfsd hfrac
  · have ht1 : ((['+'] ++ (c :: cs)) ++ frac).take 1 = ['+'] := by simp
    rw [pyFloat, ht1]
    rw [if_pos (Or.inl rfl)]
    rw [show (decide ((['+'] : Str) = ['-'])) = false from by decide]
    have hdrop : ((['+'] ++ (c :: cs)) ++ frac).drop 1 = (c :: cs) ++ frac := by simp
    rw [hdrop]
    exact pyFloatTail_ok false c cs fs frac hdsd hfsd hfrac
  · have ht1 : ((['-'] ++ (c :: cs)) ++ frac).take 1 = ['-'] := by simp
    rw [pyFloat, ht1]
    rw [if_pos (Or.inr rfl)]
    rw [show (decide ((['-'] : Str) = ['-'])) = true from by decide]
    have hdrop : ((['-'] ++ (c :: cs)) ++ frac).drop 1 = (c :: cs) ++ frac := by simp
    rw [hdrop]
    exact pyFloatTail_ok true c cs fs frac hdsd hfsd hfrac

lemma matchPctAt_capture {s cap : Str} {n : Nat}
    (h : matchPctAt s = some (cap, n)) : ∃ d, pyFloat cap = .ok d := by
  simp only [matchPctAt] at h
  set sl : Nat := if s.take 1 = ['+'] ∨ s.take 1 = ['-'] then 1 else 0 with hsl
  set s1 : Str := s.drop sl with hs1
  set ds : Str := s1.takeWhile (fun c => isDigit c) with hds
  by_cases hde : ds.isEmpty
  · rw [if_pos hde] at h
    exact absurd h (by simp)
  · rw [if_neg hde] at h
    set s2 : Str := s1.drop ds.length with hs2
    set fd : Str := if s2.take 1 = ['.'] then (s2.drop 1).takeWhile (fun c => isDigit c) else [] with hfd
    set frac : Str := if fd.isEmpty then [] else '.' :: fd with hfrac
    set s3 : Str := s2.drop frac.length with hs3
    set ws : Str := s3.takeWhile (fun c => pyIsSpace c) with hws
    by_cases hpc : (s3.drop ws.length).take 1 = ['%']
    · rw [if_pos hpc] at h
      have hc := Option.some.inj h
      have hcap : s.take sl ++ ds ++ frac = cap := congrArg Prod.fst hc
      have hsign : s.take sl = [] ∨ s.take sl = ['+'] ∨ s.take sl = ['-'] := by
        by_cases hpm : s.take 1 = ['+'] ∨ s.take 1 = ['-']
        · rw [hsl, if_pos hpm]
          rcases hpm with h' | h'
          · exact Or.inr (Or.inl h')
          · exact Or.inr (Or.inr h')
        · rw [hsl, if_neg hpm]
          exact Or.inl (List.take_zero _)
      obtain ⟨c, cs, hdcons⟩ : ∃ c cs, ds = c :: cs := by
        cases hx : ds with
        | nil => rw [hx] at hde; exact absurd rfl hde
        | cons c cs => exact ⟨c, cs, rfl⟩
      have hdsd : ∀ x ∈ c :: cs, isDigit x = true := by
        intro x hx
        rw [← hdcons] at hx
        rw [hds] at hx
        exact List.mem_takeWhile_imp hx
      by_cases hfe : fd.isEmpty
      · have hfr : frac = [] := by rw [hfrac, if_pos hfe]
        rw [← hcap, hdcons, hfr]
        exact pyFloat_ok_shape (s.take sl) [] [] c cs hsign hdsd
          (by intro x hx; simp at hx) (Or.inl rfl)
      · have hfr : frac = '.' :: fd := by rw [hfrac, if_neg hfe]
        have hfdd : ∀ x ∈ fd, isDigit x = true := by
          by_cases hdot : s2.take 1 = ['.']
          · intro x hx
            rw [hfd, if_pos hdot] at hx
            exact List.mem_takeWhile_imp hx
          · exfalso
            rw [hfd, if_neg hdot] at hfe
            exact hfe rfl
        rw [← hcap, hdcons, hfr]
        exact pyFloat_ok_shape (s.take sl) fd ('.' :: fd) c cs hsign hdsd
          hfdd (Or.inr ⟨rfl, hfe⟩)
    · rw [if_neg hpc] at h
      exact absurd h (by simp)

lemma findPctsGo_capture (s : Str) :
    ∀ (k : Nat) (cap : Str), cap ∈ findPctsGo k s → ∃ d, pyFloat cap = .ok d := by
  induction s with
  | nil =>
    intro k cap hc
    cases k with
    | zero => simp [findPctsGo] at hc
    | succ k' => simp [findPctsGo] at hc
  | cons c cs ih =>
    intro k cap hc
    cases k with
    | succ k' =>
      rw [show findPctsGo (k' + 1) (c :: cs) = findPctsGo k' cs from rfl] at hc
      exact ih k' cap hc
    | zero =>
      cases hm : matchPctAt (c :: cs) with
      | none =>
        rw [show findPctsGo 0 (c :: cs) =
          (match matchPctAt (c :: cs) with
           | some (cap', m) => cap' :: findPctsGo (m - 1) cs
           | none => findPctsGo 0 cs) from rfl, hm] at hc
        exact ih 0 cap hc
      | some p =>
        obtain ⟨cap', m⟩ := p
        rw [show findPctsGo 0 (c :: cs) =
          (match matchPctAt (c :: cs) with
           | some (cap', m) => cap' :: findPctsGo (m - 1) cs
           | none => findPctsGo 0 cs) from rfl, hm] at hc
        rcases List.mem_cons.mp hc with rfl | hmem
        · exact matchPctAt_capture hm
        · exact ih (m - 1) cap hmem

/-- Every capture of the percentage regex parses under `float()`. -/
lemma findPcts_capture {s cap : Str} (h : cap ∈ findPcts s) :
    ∃ d, pyFloat cap = .ok d :=
  findPctsGo_capture s 0 cap h

/-- C6.  On the empty article list `generate_comprehensive_analysis`
returns the fixed no-data summary with empty key points, insights and
trending topics; and the one fallible step of the analysis — indexing
and `float()`-parsing the window's percentage match inside the guarded
`try` — always succeeds when the guard (`if window_matches:`) held, so
no exception reaches the caller. -/
theorem analysis_empty_result_and_no_exception
    (query : Option Str) (window nm : Str) :
    generate_comprehensive_analysis [] query =
      ⟨"No articles available for analysis.".toList, [], [], []⟩ ∧
    (findPcts window ≠ [] →
      ∃ ins, tryMovement (findPcts window) window nm = .ok ins) := by
  constructor
  · rfl
  · intro hne
    obtain ⟨cap, rest, hcr⟩ : ∃ cap rest, findPcts window = cap :: rest := by
      cases hx : findPcts window with
      | nil => exact absurd hx hne
      | cons a l => exact ⟨a, l, rfl⟩
    have hcmem : cap ∈ findPcts window := by rw [hcr]; simp
    obtain ⟨d, hd⟩ := findPcts_capture hcmem
    refine ⟨mkMovementInsight nm d window, ?_⟩
    rw [hcr]
    simp [tryMovement, pyIndex, hd, Bind.bind, Except.bind, Functor.map, Except.map,
      Pure.pure, Except.pure]

/-- C6 witness: a concrete window with a percentage match, on which the
guarded parse concretely succeeds, plus the empty-list analysis value. -/
theorem analysis_empty_result_and_no_exception_witness :
    findPcts ("up 1.2% today".toList) ≠ [] ∧
    generate_comprehensive_analysis [] none =
      ⟨"No articles available for analysis.".toList, [], [], []⟩ ∧
    ∃ ins, tryMovement (findPcts ("up 1.2% today".toList))
      ("up 1.2% today".toList) ("NASDAQ".toList) = .ok ins := by
  refine ⟨by decide, (analysis_empty_result_and_no_exception none
    ("up 1.2% today".toList) ("NASDAQ".toList)).1, ?_⟩
  exact (analysis_empty_result_and_no_exception none
    ("up 1.2% today".toList) ("NASDAQ".toList)).2 (by decide)

/-! ### C8: truncation can split a `[title](url)` link token -/

/-- A complete inline link token `[title](url)`. -/
def linkToken (t u : Str) : Str := '[' :: t ++ (']' :: '(' :: u ++ [')'])

/-- Title of the concrete link token the hard cut lands inside. -/
def c8title : Str := "link title".toList

/-- URL of the concrete link token the hard cut lands inside. -/
def c8url : Str := "https://x".toList

/-- A 4013-character message whose final 23 characters are one complete
link token, with no paragraph break and no sentence end anywhere. -/
def c8msg : Str := List.replicate 3990 'a' ++ linkToken c8title c8url

lemma rfindSub_none_of_head_not_mem {c : Char} {subt hay : Str} (h : c ∉ hay) :
    rfindSub (c :: subt) hay = none := by
  unfold rfindSub
  rw [List.getLast?_eq_none_iff, List.filter_eq_nil_iff]
  intro i _
  cases hd : hay.drop i with
  | nil => simp [isPrefixB, hd]
  | cons d rest =>
    have hdm : d ∈ hay := by
      have hmem : d ∈ hay.drop i := by rw [hd]; simp
      exact List.mem_of_mem_drop hmem
    have hne : ¬ (c = d) := fun he => h (he ▸ hdm)
    simp [isPrefixB, hd, hne]

/-- C8 is false of the code: the concrete over-limit message `c8msg`
contains one complete link token (its title and URL free of bracket
characters), yet `truncate_message` hard-cuts at position 3996, which
lies strictly inside the token — the output ends with a proper non-empty
prefix (6 of 23 characters) of the token, then the ellipsis. -/
theorem truncate_message_splits_link_token :
    (∀ ch ∈ c8title ++ c8url,
      ch ≠ '[' ∧ ch ≠ ']' ∧ ch ≠ '(' ∧ ch ≠ ')') ∧
    c8msg = List.replicate 3990 'a' ++ linkToken c8title c8url ∧
    4000 < c8msg.length ∧
    truncate_message c8msg 4000 =
      List.replicate 3990 'a' ++ (linkToken c8title c8url).take 6 ++ ellipsisStr ∧
    0 < 6 ∧ 6 < (linkToken c8title c8url).length := by
  have hlen : c8msg.length = 4013 := by
    rw [c8msg, List.length_append, List.length_replicate]
    decide
  have htake : c8msg.take 3996 =
      List.replicate 3990 'a' ++ (linkToken c8title c8url).take 6 := by
    rw [c8msg, List.take_append_eq_append_take]
    rw [List.take_of_length_le (by rw [List.length_replicate]; omega)]
    rw [List.length_replicate]
  have hhead : ∀ ch ∈ c8msg.take 3996, ch = 'a' ∨ ch ∈ (linkToken c8title c8url).take 6 := by
    intro ch hc
    rw [htake] at hc
    rcases List.mem_append.mp hc with hm | hm
    · exact Or.inl (List.eq_of_mem_replicate hm)
    · exact Or.inr hm
  have hnn : ('\n' : Char) ∉ c8msg.take 3996 := by
    intro hmem
    rcases hhead _ hmem with he | he
    · exact absurd he (by decide)
    · exact absurd he (by decide)
  have hdot : ('.' : Char) ∉ c8msg.take 3996 := by
    intro hmem
    rcases hhead _ hmem with he | he
    · exact absurd he (by decide)
    · exact absurd he (by decide)
  have h1 : rfindSub nnStr (c8msg.take 3996) = none :=
    rfindSub_none_of_head_not_mem hnn
  have h2 : rfindSub dsStr (c8msg.take 3996) = none :=
    rfindSub_none_of_head_not_mem hdot
  have htr : truncate_message c8msg 4000 = c8msg.take 3996 ++ ellipsisStr := by
    unfold truncate_message
    rw [if_neg (by omega)]
    simp only [show (4000 : Nat) - 4 = 3996 from rfl, h1, h2, Option.map_none']
  refine ⟨by decide, rfl, by omega, ?_, by omega, by decide⟩
  rw [htr, htake, List.append_assoc]

/-! ### C7: provider failure semantics

`news_providers/google_news.py` and `news_providers/financial_site.py`
are embedded over an abstract page model: the network call is an oracle
(`Except`-valued — an `error` is a raised `requests` exception), and the
BeautifulSoup selector cascades are abstracted as the page's pre-extracted
fields (a block's title element, fallback link, source and time element;
a site element's extracted title/link pairs).  The control flow — the
status check, the per-item skips, the exact-title dedup, the last-resort
anchor pass, the URL normalization and the top-level `try/except` —
is translated from the source.  When the Google fetch gets a non-200
response, the source's alternative pass reads the local `soup`, which
was only assigned under `status_code == 200`: that `NameError`
(`UnboundLocalError`) is modelled explicitly and is caught by the same
`except Exception` that returns `[]`. -/

/-- A title element as the Google selector cascade returns it. -/
structure GElem where
  text : Str
  href : Option Str
  parentHref : Option Str

/-- A time element: optional `datetime` attribute and its text. -/
structure GTime where
  datetimeAttr : Option Str
  text : Str

/-- One Google News article block, with the results of the selector
cascades pre-extracted. -/
structure GBlock where
  titleElem : Option GElem
  altLinkHref : Option Str
  sourceText : Option Str
  timeElem : Option GTime

/-- An anchor of the last-resort pass. -/
structure GLink where
  text : Str
  href : Option Str

/-- The parsed Google News page. -/
structure GPage where
  blocks : List GBlock
  altLinks : List GLink

/-- Exceptions of the Google fetch: a raised network error, or the
`NameError` from reading the unassigned `soup`. -/
inductive GErr where
  | requestsError
  | nameError

/-- A completed HTTP response for the Google fetch. -/
structure GResp where
  status : Nat
  page : GPage

/-- Lines 139–147 of `google_news.py`: normalize the three link shapes. -/
def googleNormalizeUrl (linkRel : Str) : Str :=
  if isPrefixB ("./articles/".toList) linkRel then
    "https://news.google.com/".toList ++ linkRel.drop 2
  else if isPrefixB ("/articles/".toList) linkRel then
    "https://news.google.com".toList ++ linkRel
  else if isPrefixB ("http://".toList) linkRel ∨ isPrefixB ("https://".toList) linkRel then
    linkRel
  else "https://news.google.com/".toList ++ linkRel

/-- Lines 97–192 of `google_news.py`: extract one article from a block;
`none` is the `continue` on a missing/empty title or link.  (The dict's
`query` key is dropped by `normalize_article` and not modelled.) -/
def processBlock (b : GBlock) : Option (List (Str × OutVal)) :=
  match b.titleElem with
  | none => none
  | some te =>
    if te.text.isEmpty then none
    else
      let linkRel : Str := match te.href with
        | some h => h
        | none => (te.parentHref).getD []
      let linkRel2 : Option Str :=
        if linkRel.isEmpty then b.altLinkHref else some linkRel
      match linkRel2 with
      | none => none
      | some lr =>
        let source := (b.sourceText).getD ("Unknown".toList)
        let publishedAt : Str := match b.timeElem with
          | some t => (t.datetimeAttr).getD []
          | none => []
        let timeText : Str := match b.timeElem with
          | some t => t.text
          | none => "Recent".toList
        some (normalize_article
          { title := some te.text, url := some (googleNormalizeUrl lr),
            publishedAt := some publishedAt, time := some timeText,
            content := none,
            source := .svDict [("name".toList, some source)] })

/-- Lines 194–201 of `google_news.py`: drop items whose exact normalized
title value was already seen (the title key is always present on a
`normalize_article` result). -/
def gdedup : List OutVal → List (List (Str × OutVal)) → List (List (Str × OutVal))
  | _, [] => []
  | seen, item :: rest =>
    let t := (List.lookup ("title".toList) item).getD (.str [])
    if t ∉ seen then item :: gdedup (t :: seen) rest
    else gdedup seen rest

/-- Lines 209–231 of `google_news.py`: the last-resort anchor pass. -/
def gAltPass (links : List GLink) : List (List (Str × OutVal)) :=
  (links.take 10).filterMap (fun l =>
    let href := (l.href).getD []
    if ¬ l.text.isEmpty ∧ ¬ href.isEmpty ∧ 15 < l.text.length then
      let href2 :=
        if isPrefixB ("/".toList) href then "https://news.google.com".toList ++ href
        else if isPrefixB ("http://".toList) href ∨ isPrefixB ("https://".toList) href then href
        else "https://news.google.com/".toList ++ href
      some (normalize_article
        { title := some l.text, url := some href2, publishedAt := some [],
          time := some ("Recent".toList), content := none,
          source := .svDict [("name".toList, some ("Google News".toList))] })
    else none)

/-- The body of the `try` block of `GoogleNewsProvider.fetch_news`; an
`Except.error` is an exception reaching the `except` handler. -/
def googleFetchBody (net : Except GErr GResp) :
    Except GErr (List (List (Str × OutVal))) := do
  let resp ← net
  let newsItems := if resp.status = 200 then resp.page.blocks.filterMap processBlock else []
  let filtered := gdedup [] newsItems
  if filtered.isEmpty then
    if resp.status = 200 then pure (gAltPass resp.page.altLinks)
    else throw .nameError
  else pure filtered

/-- `GoogleNewsProvider.fetch_news`: the whole body runs under
`try: ... except Exception: return []`.  The query/country parameters
only shape the request URL and the logging; the returned articles do not
depend on them (the dict's `query` key is dropped by normalization). -/
def google_fetch_news (net : Except GErr GResp) (query country : Option Str) :
    List (List (Str × OutVal)) :=
  match googleFetchBody net with
  | .ok l => l
  | .error _ => []

/-- One site element with the two title/link extraction results (empty
strings mean extraction failed) and the optional time text. -/
structure FElem where
  tl1 : Str × Str
  tl2 : Str × Str
  timeText : Option Str

/-- The parsed page of one financial-site URL: the primary selector's
elements and the alternative cascade's. -/
structure FPage where
  primary : List FElem
  alt : List FElem

/-- The network exception of one financial-site request. -/
inductive FErr where
  | requestsError

/-- A completed HTTP response for one financial-site URL. -/
structure FResp where
  status : Nat
  page : FPage

/-- Lines 88–125 of `financial_site.py`: extract one article, taking the
alternative title/link when the configured selectors miss, skipping when
both miss. -/
def processFElem (siteName : Str) (e : FElem) : Option (List (Str × OutVal)) :=
  let p := if e.tl1.1.isEmpty ∨ e.tl1.2.isEmpty then e.tl2 else e.tl1
  if p.1.isEmpty ∨ p.2.isEmpty then none
  else
    let timeText := ((e.timeText).map stripWs).getD []
    some (normalize_article
      { title := some p.1, url := some p.2, publishedAt := none,
        time := some timeText, content := none,
        source := .svDict [("name".toList, some siteName)] })

/-- One iteration of the URL loop of `FinancialSiteProvider.fetch_news`:
a raised network error or a non-200 status contributes nothing; with no
extractable elements the primary/alternative cascade yields nothing. -/
def finFetchUrl (siteName : Str) (maxArticles : Nat) (resp : Except FErr FResp) :
    List (List (Str × OutVal)) :=
  match resp with
  | .error _ => []
  | .ok r =>
    if r.status ≠ 200 then []
    else
      let elems := if r.page.primary.isEmpty then r.page.alt else r.page.primary
      (elems.take maxArticles).filterMap (processFElem siteName)

/-- `FinancialSiteProvider.fetch_news`: accumulate over the configured
URLs; each URL's body runs under its own `try/except`. -/
def financial_fetch_news (siteName : Str) (urls : List Str) (maxArticles : Nat)
    (net : Str → Except FErr FResp) : List (List (Str × OutVal)) :=
  (urls.map (fun u => finFetchUrl siteName maxArticles (net u))).flatten

/-- C7.  Neither provider lets a failure escape: a raised network error,
a non-200 status, or a total parse failure (no blocks and no last-resort
anchors; no primary and no alternative elements) makes the provider
return the empty article list. -/
theorem providers_fail_closed
    (query country : Option Str) (e : GErr) (resp : GResp) (page : GPage)
    (st : Nat) (siteName : Str) (urls : List Str) (maxArticles : Nat)
    (net : Str → Except FErr FResp) :
    google_fetch_news (.error e) query country = [] ∧
    (resp.status ≠ 200 → google_fetch_news (.ok resp) query country = []) ∧
    (page.blocks = [] → page.altLinks = [] →
      google_fetch_news (.ok ⟨st, page⟩) query country = []) ∧
    ((∀ u ∈ urls, net u = .error .requestsError ∨
        (∃ r, net u = .ok r ∧ r.status ≠ 200) ∨
        (∃ r, net u = .ok r ∧ r.page.primary = [] ∧ r.page.alt = [])) →
      financial_fetch_news siteName urls maxArticles net = []) := by
  refine ⟨rfl, ?_, ?_, ?_⟩
  · intro hs
    simp only [google_fetch_news, googleFetchBody, if_neg hs]
    simp [Bind.bind, Except.bind, gdedup, hs]
  · intro hb ha
    simp only [google_fetch_news, googleFetchBody]
    simp [Bind.bind, Except.bind, gdedup, gAltPass, hb, ha]
    by_cases hst : st = 200 <;> simp [hst, Pure.pure, Except.pure]
  · intro hall
    induction urls with
    | nil => rfl
    | cons u rest ih =>
      have hu := hall u (by simp)
      have hrest : financial_fetch_news siteName rest maxArticles net = [] :=
        ih (fun v hv => hall v (List.mem_cons_of_mem _ hv))
      have hhead : finFetchUrl siteName maxArticles (net u) = [] := by
        rcases hu with hu | ⟨r, hr, hs⟩ | ⟨r, hr, hp, ha⟩
        · rw [hu]
          rfl
        · rw [hr]
          simp [finFetchUrl, hs]
        · rw [hr]
          simp [finFetchUrl, hp, ha]
      simp only [financial_fetch_news, List.map_cons, List.flatten_cons] at *
      rw [hhead, hrest]
      rfl

/-- C7 witness: concrete failing inputs — a raised request error, a 404
response, an empty parse, and a site provider whose one URL errors — all
yield the empty list. -/
theorem providers_fail_closed_witness :
    ((⟨404, ⟨[], []⟩⟩ : GResp).status ≠ 200) ∧
    google_fetch_news (.error .requestsError) none none = [] ∧
    google_fetch_news (.ok ⟨404, ⟨[], []⟩⟩) none none = [] ∧
    google_fetch_news (.ok ⟨200, ⟨[], []⟩⟩) none none = [] ∧
    financial_fetch_news ("MoneyControl".toList) ["u1".toList] 10
      (fun _ => .error .requestsError) = [] := by
  have h := providers_fail_closed none none GErr.requestsError ⟨404, ⟨[], []⟩⟩
    ⟨[], []⟩ 200 ("MoneyControl".toList) ["u1".toList] 10
    (fun _ => .error .requestsError)
  refine ⟨by decide, h.1, h.2.1 (by decide), h.2.2.1 rfl rfl, ?_⟩
  exact h.2.2.2 (by intro u hu; exact Or.inl rfl)

end Marketbot